import Mathlib

/-!
Shallow embedding of the bank-churn derivation-and-aggregation pipeline
(`src/churn_analysis.py` and `dashboard/app.py`): schema normalizer,
segment labeler (`pd.cut` / `pd.qcut` semantics), risk scorer, aggregator,
loader, and the interactive filter, together with theorems settling the
specification claims.
-/

namespace BankChurn

/-- A customer row after schema normalisation (canonical column names).
`riskScore` / `riskLevel` are the derived columns appended by the risk
scorer; a freshly loaded row has `none` in both. -/
structure Row where
  creditScore : ℤ
  geography : String
  gender : String
  age : ℤ
  tenure : ℤ
  balance : ℚ
  numOfProducts : ℤ
  hasCreditCard : ℤ
  isActiveMember : ℤ
  estimatedSalary : ℚ
  satisfactionScore : ℤ
  cardType : String
  pointsEarned : ℤ
  hasComplaint : ℤ
  churned : ℤ
  riskScore : Option ℤ := none
  riskLevel : Option String := none
deriving DecidableEq, Repr

/-! ### `pd.cut` with fixed bin edges

`pd.cut(x, bins=[e0,...,ek], labels=[l0,...,l(k-1)])` (defaults:
`right=True`, `include_lowest=False`) assigns `x` the bucket `i` such that
`e_i < x ≤ e_(i+1)`, and NaN (here `none`) when `x ≤ e0` or `x > ek`. -/

/-- Scan consecutive edge pairs; `i` is the index of the pair `(lo, hi)`. -/
def cutBucketAux {α : Type} [LinearOrder α] (lo : α) (rest : List α) (x : α)
    (i : ℕ) : Option ℕ :=
  match rest with
  | [] => none
  | hi :: tl => if lo < x ∧ x ≤ hi then some i else cutBucketAux hi tl x (i + 1)

/-- Bucket index of `x` for edge list `edges` (`pd.cut`, `right=True`). -/
def cutBucket {α : Type} [LinearOrder α] (edges : List α) (x : α) : Option ℕ :=
  match edges with
  | [] => none
  | e :: tl => cutBucketAux e tl x 0

/-- `df['AgeGroup'] = pd.cut(df['Age'], bins=[0,30,40,50,60,100], labels=[...])`. -/
def ageGroup (a : ℤ) : Option String :=
  (cutBucket [0, 30, 40, 50, 60, 100] a).bind
    (["18-30", "31-40", "41-50", "51-60", "60+"].get? ·)

/-- `df['CreditSegment'] = pd.cut(df['CreditScore'], bins=[0,580,670,740,800,900], ...)`. -/
def creditSegment (c : ℤ) : Option String :=
  (cutBucket [0, 580, 670, 740, 800, 900] c).bind
    (["Poor", "Fair", "Good", "Very Good", "Excellent"].get? ·)

/-- `df['TenureSegment'] = pd.cut(df['Tenure'], bins=[-1,2,5,8,10], ...)`. -/
def tenureSegment (t : ℤ) : Option String :=
  (cutBucket [-1, 2, 5, 8, 10] t).bind
    (["New (0-2)", "Growing (3-5)", "Mature (6-8)", "Loyal (9-10)"].get? ·)

/-! ### Risk scorer (`dashboard/app.py`, Risk Analysis page)

```
df_risk['RiskScore'] = 0
df_risk.loc[df_risk['HasComplaint'] == 1, 'RiskScore'] += 40
df_risk.loc[df_risk['IsActiveMember'] == 0, 'RiskScore'] += 20
df_risk.loc[df_risk['Geography'] == 'Germany', 'RiskScore'] += 15
df_risk.loc[df_risk['NumOfProducts'].isin([1, 3, 4]), 'RiskScore'] += 15
df_risk.loc[df_risk['Age'] > 50, 'RiskScore'] += 10
```
restricted to a single row. -/
def riskScoreOf (r : Row) : ℤ :=
  let s : ℤ := 0
  let s := if r.hasComplaint = 1 then s + 40 else s
  let s := if r.isActiveMember = 0 then s + 20 else s
  let s := if r.geography = "Germany" then s + 15 else s
  let s := if r.numOfProducts ∈ ([1, 3, 4] : List ℤ) then s + 15 else s
  if r.age > 50 then s + 10 else s

/-- `pd.cut(df_risk['RiskScore'], bins=[-1,20,40,60,100], labels=['Low','Medium','High','Critical'])`. -/
def riskLevelOf (s : ℤ) : Option String :=
  (cutBucket [-1, 20, 40, 60, 100] s).bind
    (["Low", "Medium", "High", "Critical"].get? ·)

/-! ### `pd.qcut` semantics for `BalanceSegment`

```
df['BalanceSegment'] = pd.qcut(df['Balance'].replace(0, np.nan),
                               q=4, labels=['Low','Medium','High','Premium'],
                               duplicates='drop')
df['BalanceSegment'] = df['BalanceSegment'].cat.add_categories(['Zero'])
df.loc[df['Balance'] == 0, 'BalanceSegment'] = 'Zero'
```
`qcut` computes the 0, .25, .5, .75, 1 quantiles of the non-NaN values by
linear interpolation over the sorted data, collapses duplicate edges
(`np.unique`), and raises `ValueError` when the number of surviving edges
no longer matches the four supplied labels.  NaN inputs (here: the zero
balances replaced by NaN) get a missing label, later overwritten by
`'Zero'`. -/

/-- Exact rational addition written through `mkRat` (extensionally `· + ·`;
spelled out so that concrete instances evaluate by kernel reduction). -/
def ratAdd (a b : ℚ) : ℚ := mkRat (a.num * b.den + b.num * a.den) (a.den * b.den)

/-- Exact rational subtraction through `mkRat` (extensionally `· - ·`). -/
def ratSub (a b : ℚ) : ℚ := mkRat (a.num * b.den - b.num * a.den) (a.den * b.den)

/-- Exact rational multiplication through `mkRat` (extensionally `· * ·`). -/
def ratMul (a b : ℚ) : ℚ := mkRat (a.num * b.num) (a.den * b.den)

/-- Linear-interpolation quantile of an (already sorted) list `s`:
`pos = q*(n-1)`, `result = s[⌊pos⌋] + (pos-⌊pos⌋)*(s[⌊pos⌋+1] - s[⌊pos⌋])`. -/
def interpQuantile (s : List ℚ) (q : ℚ) : ℚ :=
  let pos : ℚ := ratMul q (ratSub (mkRat s.length 1) 1)
  let i : ℕ := pos.floor.toNat
  let g : ℚ := ratSub pos (mkRat i 1)
  match s.get? i, s.get? (i + 1) with
  | some a, some b => ratAdd a (ratMul g (ratSub b a))
  | some a, none => a
  | none, _ => 0

/-- Sort ascending by `≤` (the order `np.sort` uses on the data). -/
def sortAsc (xs : List ℚ) : List ℚ := xs.insertionSort (· ≤ ·)

/-- The five quantile values at `q ∈ {0, 1/4, 1/2, 3/4, 1}`. -/
def quantileList (xs : List ℚ) : List ℚ :=
  let s := sortAsc xs
  [interpQuantile s 0, interpQuantile s (mkRat 1 4), interpQuantile s (mkRat 1 2),
   interpQuantile s (mkRat 3 4), interpQuantile s 1]

/-- Collapse adjacent duplicates (the uniquing half of `np.unique`). -/
def dedupAdj : List ℚ → List ℚ
  | [] => []
  | [a] => [a]
  | a :: b :: rest =>
      if a = b then dedupAdj (b :: rest) else a :: dedupAdj (b :: rest)

/-- The `qcut` bin edges: `np.unique` of the five quantiles; `none` when the
data is empty or duplicate collapsing leaves fewer than 5 edges (pandas then
raises `ValueError: Bin labels must be one fewer than the number of bin
edges`). -/
def qcutEdges (xs : List ℚ) : Option (List ℚ) :=
  if xs = [] then none
  else
    let es := dedupAdj (sortAsc (quantileList xs))
    if es.length = 5 then some es else none

/-- Bucket label for a non-NaN value under `qcut` edges
(`include_lowest`: a value equal to the lowest edge joins the first bucket). -/
def qcutLabel (edges : List ℚ) (x : ℚ) : Option String :=
  match edges.head? with
  | none => none
  | some e0 =>
      if x = e0 then some "Low"
      else (cutBucket edges x).bind (["Low", "Medium", "High", "Premium"].get? ·)

/-- The balances taking part in the quantile computation: `replace(0, np.nan)`
makes `qcut` ignore exactly the zero balances. -/
def nonzeroBalances (t : List Row) : List ℚ :=
  (t.filter (fun r => r.balance ≠ 0)).map (·.balance)

/-- The whole `BalanceSegment` assignment: compute quantile edges over the
nonzero balances (error when degenerate), label every nonzero balance by its
bucket, then overwrite the zero-balance rows with `'Zero'`. -/
def assignBalanceSegments (t : List Row) :
    Except String (List (Row × Option String)) :=
  match qcutEdges (nonzeroBalances t) with
  | none => Except.error "ValueError: Bin labels must be one fewer than the number of bin edges"
  | some es =>
      Except.ok (t.map fun r =>
        (r, if r.balance = 0 then some "Zero" else qcutLabel es r.balance))

/-! ### Risk Analysis page with explicit aliasing (frame property)

The dashboard holds dataframes by reference; `df_risk = df.copy()` allocates
a fresh table, after which the five `.loc[...] += ` statements and the
`RiskLevel` column assignment mutate the copy in place.  We model the
reference heap explicitly so that "the original table is untouched" is a
real statement about mutation, not a vacuity of pure functions. -/

/-- The heap of live dataframes; a reference is an index. -/
abbrev Heap : Type := List (List Row)

/-- Dereference (out-of-range reads give the empty table). -/
def heapGet (h : Heap) (i : ℕ) : List Row := (List.getD h i [])

/-- In-place update of the table behind reference `i`. -/
def heapSet (h : Heap) (i : ℕ) (t : List Row) : Heap := List.set h i t

/-- `df.copy()`: allocate a fresh cell holding the same rows. -/
def heapAlloc (h : Heap) (t : List Row) : Heap × ℕ := (h ++ [t], List.length h)

/-- `df_risk['RiskScore'] = 0`. -/
def initRiskScore (t : List Row) : List Row :=
  t.map fun r => { r with riskScore := some 0 }

/-- One `df_risk.loc[cond, 'RiskScore'] += n` statement. -/
def riskBump (p : Row → Bool) (n : ℤ) (t : List Row) : List Row :=
  t.map fun r =>
    if p r then { r with riskScore := some (r.riskScore.getD 0 + n) } else r

/-- `df_risk['RiskLevel'] = pd.cut(df_risk['RiskScore'], ...)`. -/
def setRiskLevels (t : List Row) : List Row :=
  t.map fun r => { r with riskLevel := riskLevelOf (r.riskScore.getD 0) }

/-- The Risk Analysis page body (`app.py` lines 346-355): copy `df`, then
mutate the copy through the score initialisation, the five rule bumps and
the level assignment.  Returns the final heap and the copy's reference. -/
def riskAnalysisPage (h : Heap) (dfRef : ℕ) : Heap × ℕ :=
  let p := heapAlloc h (heapGet h dfRef)
  let h1 := p.1
  let rr := p.2
  let h2 := heapSet h1 rr (initRiskScore (heapGet h1 rr))
  let h3 := heapSet h2 rr (riskBump (fun r => r.hasComplaint = 1) 40 (heapGet h2 rr))
  let h4 := heapSet h3 rr (riskBump (fun r => r.isActiveMember = 0) 20 (heapGet h3 rr))
  let h5 := heapSet h4 rr (riskBump (fun r => r.geography = "Germany") 15 (heapGet h4 rr))
  let h6 := heapSet h5 rr
    (riskBump (fun r => decide (r.numOfProducts ∈ ([1, 3, 4] : List ℤ))) 15 (heapGet h5 rr))
  let h7 := heapSet h6 rr (riskBump (fun r => r.age > 50) 10 (heapGet h6 rr))
  let h8 := heapSet h7 rr (setRiskLevels (heapGet h7 rr))
  (h8, rr)

/-! ### Aggregator

`df.groupby(col).agg({'Churned': ['count', 'sum', 'mean']})`: one output row
per distinct non-missing key value; rows whose key is missing (NaN — e.g. an
out-of-range `AgeGroup`) are silently dropped by `groupby`. -/

/-- One aggregated output row. -/
structure GroupRow (K : Type) where
  key : K
  total : ℕ
  churnedCount : ℤ
  churnRate : ℚ
deriving Repr

/-- The distinct non-missing key values present in the table. -/
def distinctKeys {K : Type} [DecidableEq K] (key : Row → Option K)
    (t : List Row) : List K :=
  (t.filterMap key).dedup

/-- `groupby(key).agg(count, sum, mean)` over the churn flag. -/
def groupAgg {K : Type} [DecidableEq K] (key : Row → Option K)
    (t : List Row) : List (GroupRow K) :=
  (distinctKeys key t).map fun k =>
    let g := t.filter fun r => key r = some k
    { key := k
      total := g.length
      churnedCount := (g.map (·.churned)).sum
      churnRate := ((g.map (fun r => (r.churned : ℚ))).sum) / (g.length : ℚ) }

/-! ### Schema normalizer: identifier-column drop

Two variants exist in the repository:
`churn_analysis.py`: `df.drop(['RowNumber','CustomerId','Surname'], axis=1)`
— raises `KeyError` when any label is absent;
`app.py`: the same call with `errors='ignore'` — best-effort. -/

/-- A raw dataframe: named columns with their cell values. -/
abbrev DFrame : Type := List (String × List String)

/-- The three identifier columns. -/
def idCols : List String := ["RowNumber", "CustomerId", "Surname"]

/-- `df.drop(labels, axis=1)` without `errors='ignore'`
(`churn_analysis.py` line 65): `KeyError` if any label is missing. -/
def dropStrict (labels : List String) (f : DFrame) : Except String DFrame :=
  if labels.all (fun l => f.any (fun c => c.1 = l)) then
    Except.ok (f.filter (fun c => ¬ c.1 ∈ labels))
  else Except.error "KeyError: labels not found in axis"

/-- `df.drop(labels, axis=1, errors='ignore')` (`app.py` line 50). -/
def dropIgnore (labels : List String) (f : DFrame) : DFrame :=
  f.filter (fun c => ¬ c.1 ∈ labels)

/-! ### Loader (`app.py` `load_data`)

Try each pre-derived path in order and return the first successful parse;
only if all fail, try the raw paths (running the processing pipeline on a
successful raw load, a failure of which is swallowed by the bare `except`
and falls through to the next candidate); if everything fails, raise the
fixed `FileNotFoundError("Could not load data from any path")`.  The table
type and the processing step are parameters: the loader's control flow is
independent of both.  Alongside the result we log the attempted paths. -/

/-- Iterate candidate paths; `step` is one `try:` body (read, and for the raw
list also process).  Returns the first success and the list of paths
attempted (every path tried up to and including the successful one). -/
def tryPaths {α : Type} (step : String → Except String α) :
    List String → Option α × List String
  | [] => (none, [])
  | p :: ps =>
      match step p with
      | Except.ok t => (some t, [p])
      | Except.error _ =>
          let rest := tryPaths step ps
          (rest.1, p :: rest.2)

/-- The fixed generic message of the final `FileNotFoundError`. -/
def noDataMsg : String := "Could not load data from any path"

/-- `load_data` up to its KPI tail: `env` maps a path to its parse outcome,
`process` is the raw-table pipeline (drop/rename/labelers).  Returns the
outcome and the full list of attempted paths. -/
def loadData {α : Type} (env : String → Except String α)
    (process : α → Except String α) (processedPaths rawPaths : List String) :
    Except String α × List String :=
  match tryPaths env processedPaths with
  | (some t, log) => (Except.ok t, log)
  | (none, log1) =>
      match tryPaths (fun p => (env p).bind process) rawPaths with
      | (some t, log2) => (Except.ok t, log1 ++ log2)
      | (none, log2) => (Except.error noDataMsg, log1 ++ log2)

/-! ### Interactive filter (`app.py` Churn Analysis page)

```
filtered_df = df[(df['Geography'].isin(geo_filter)) &
                 (df['Gender'].isin(gender_filter)) &
                 (df['CardType'].isin(card_filter))]
len(filtered_df), filtered_df['Churned'].mean()
```
`Series.mean()` of an empty selection is NaN (`none` here), not an error. -/

/-- `Series.mean()`: `none` (NaN) on an empty series. -/
def seriesMean (xs : List ℚ) : Option ℚ :=
  if xs = [] then none else some (xs.sum / (xs.length : ℚ))

/-- Row predicate of the three `isin` filters. -/
def filterPred (geoF genderF cardF : List String) (r : Row) : Bool :=
  r.geography ∈ geoF ∧ r.gender ∈ genderF ∧ r.cardType ∈ cardF

/-- Filtered customer count and churn rate shown in the markdown line. -/
def filteredStats (t : List Row) (geoF genderF cardF : List String) :
    ℕ × Option ℚ :=
  let ft := t.filter (filterPred geoF genderF cardF)
  (ft.length, seriesMean (ft.map (fun r => (r.churned : ℚ))))

/-- Equality of `Except` outcomes is decidable componentwise. -/
instance {ε α : Type} [DecidableEq ε] [DecidableEq α] :
    DecidableEq (Except ε α) := fun x y =>
  match x, y with
  | Except.ok a, Except.ok b =>
      if h : a = b then isTrue (by rw [h])
      else isFalse (by intro hc; cases hc; exact h rfl)
  | Except.ok _, Except.error _ => isFalse (by intro hc; cases hc)
  | Except.error _, Except.ok _ => isFalse (by intro hc; cases hc)
  | Except.error e, Except.error f =>
      if h : e = f then isTrue (by rw [h])
      else isFalse (by intro hc; cases hc; exact h rfl)

/-! ### Concrete rows, tables and environments used in instance checks -/

/-- The concrete scenario row of the spec (§8): CreditScore 650,
Geography Germany, Gender Female, Age 55, Tenure 3, Balance 0,
NumOfProducts 3, HasCreditCard 1, IsActiveMember 0, SatisfactionScore 2,
CardType GOLD, PointsEarned 500, HasComplaint 1, Churned 1.
(EstimatedSalary is not pinned by the scenario; 50000 is arbitrary.) -/
def specRow : Row :=
  { creditScore := 650, geography := "Germany", gender := "Female", age := 55,
    tenure := 3, balance := 0, numOfProducts := 3, hasCreditCard := 1,
    isActiveMember := 0, estimatedSalary := 50000, satisfactionScore := 2,
    cardType := "GOLD", pointsEarned := 500, hasComplaint := 1, churned := 1 }

/-- A bland customer row with a chosen balance and age (all risk rules off:
no complaint, active, France, 2 products, used as filler/counterexample). -/
def plainRow (bal : ℚ) (a : ℤ) : Row :=
  { creditScore := 600, geography := "France", gender := "Male", age := a,
    tenure := 4, balance := bal, numOfProducts := 2, hasCreditCard := 1,
    isActiveMember := 1, estimatedSalary := 30000, satisfactionScore := 3,
    cardType := "SILVER", pointsEarned := 100, hasComplaint := 0, churned := 0 }

/-- A five-row table around `specRow` whose nonzero balances 10,20,30,40
give the four distinct quantile buckets. -/
def demoTable : List Row :=
  [specRow, plainRow 10 40, plainRow 20 40, plainRow 30 40, plainRow 40 40]

/-- The expected `BalanceSegment` labelling of `demoTable`
(edges 10, 17.5, 25, 32.5, 40). -/
def demoRes : List (Row × Option String) :=
  [(specRow, some "Zero"), (plainRow 10 40, some "Low"),
   (plainRow 20 40, some "Medium"), (plainRow 30 40, some "High"),
   (plainRow 40 40, some "Premium")]

/-- A degenerate table: both nonzero balances are equal, so all quantile
edges coincide and `pd.qcut(..., duplicates='drop')` raises. -/
def degenerateTable : List Row :=
  [plainRow 5 40, plainRow 5 40, plainRow 0 40]

/-- Loader environment for the success scenario: the first processed path is
unreachable, the second parses as a derived table. -/
def demoEnv : String → Except String (List Row) := fun p =>
  if p = "../data/processed_churn_data.csv" then Except.ok [specRow]
  else Except.error "FileNotFoundError"

/-- Loader environment where every path fails, each with its own reason. -/
def failEnvA : String → Except String (List Row) := fun p =>
  if p = "data/processed_churn_data.csv" then Except.error "PermissionError"
  else Except.error "FileNotFoundError"

/-- A second all-failing environment with different reasons. -/
def failEnvB : String → Except String (List Row) := fun _ =>
  Except.error "ParserError"

/-- A trivial stand-in for the raw-table processing step of the loader. -/
def demoProcess : List Row → Except String (List Row) := fun t => Except.ok t

/-! ## Helper lemmas -/

/-- The risk score as a sum of five independent indicator terms. -/
theorem riskScoreOf_eq (r : Row) : riskScoreOf r =
    (if r.hasComplaint = 1 then (40 : ℤ) else 0) +
    (if r.isActiveMember = 0 then (20 : ℤ) else 0) +
    (if r.geography = "Germany" then (15 : ℤ) else 0) +
    (if r.numOfProducts ∈ ([1, 3, 4] : List ℤ) then (15 : ℤ) else 0) +
    (if r.age > 50 then (10 : ℤ) else 0) := by
  simp only [riskScoreOf]
  split_ifs <;> omega

/-- An indicator term is monotone under implication of its condition. -/
theorem indicator_mono (p q : Prop) [Decidable p] [Decidable q] (n : ℤ)
    (hn : 0 ≤ n) (h : p → q) :
    (if p then n else 0) ≤ (if q then n else 0) := by
  split_ifs with h1 h2
  · exact le_refl n
  · exact absurd (h h1) h2
  · exact hn
  · exact le_refl 0

/-! ## Claim theorems -/

/-- Claim C2: for every customer row the additive risk score lies in
`[0, 100]`, and the score is monotone in the truth value of each penalized
condition: whenever no penalized condition flips from true to false
(so flipping any single one from false to true, all other fields held
fixed, is an instance), the score does not decrease. -/
theorem riskScore_range_and_mono :
    (∀ r : Row, 0 ≤ riskScoreOf r ∧ riskScoreOf r ≤ 100) ∧
    (∀ r r' : Row,
      (r.hasComplaint = 1 → r'.hasComplaint = 1) →
      (r.isActiveMember = 0 → r'.isActiveMember = 0) →
      (r.geography = "Germany" → r'.geography = "Germany") →
      (r.numOfProducts ∈ ([1, 3, 4] : List ℤ) →
        r'.numOfProducts ∈ ([1, 3, 4] : List ℤ)) →
      (50 < r.age → 50 < r'.age) →
      riskScoreOf r ≤ riskScoreOf r') := by
  constructor
  · intro r
    rw [riskScoreOf_eq]
    constructor <;> split_ifs <;> omega
  · intro r r' h1 h2 h3 h4 h5
    rw [riskScoreOf_eq, riskScoreOf_eq]
    have g1 := indicator_mono _ _ 40 (by omega) h1
    have g2 := indicator_mono _ _ 20 (by omega) h2
    have g3 := indicator_mono _ _ 15 (by omega) h3
    have g4 := indicator_mono _ _ 15 (by omega) h4
    have g5 := indicator_mono (50 < r.age) (50 < r'.age) 10 (by omega) h5
    omega

/-- Witness for C2: a concrete monotone flip (the bland row scores at most
the spec scenario row, which scores within `[0, 100]`). -/
theorem riskScore_range_and_mono_witness :
    (0 ≤ riskScoreOf specRow ∧ riskScoreOf specRow ≤ 100) ∧
    riskScoreOf (plainRow 0 40) ≤ riskScoreOf specRow :=
  ⟨riskScore_range_and_mono.1 specRow,
   riskScore_range_and_mono.2 (plainRow 0 40) specRow (by decide) (by decide)
     (by decide) (by decide) (by decide)⟩

/-- Claim C3: the Risk Analysis page operates on `df.copy()`: for every
heap and every valid reference to the loaded table, running the risk-score
and risk-level computation leaves the table behind the original reference
unchanged. -/
theorem riskAnalysisPage_frame (h : Heap) (i : ℕ) (hi : i < h.length) :
    heapGet (riskAnalysisPage h i).1 i = heapGet h i := by
  simp only [riskAnalysisPage, heapAlloc, heapSet, heapGet, List.getD]
  have hne : i ≠ h.length := Nat.ne_of_lt hi
  simp [List.getElem?_set_ne (Ne.symm hne), List.getElem?_append_left hi]

/-- Witness for C3 at a concrete one-table heap. -/
theorem riskAnalysisPage_frame_witness :
    heapGet (riskAnalysisPage [[specRow]] 0).1 0 = heapGet [[specRow]] 0 :=
  riskAnalysisPage_frame [[specRow]] 0 (by decide)

/-- Claim C6 (amended): an `Age` outside `(0, 100]` or a `CreditScore`
outside `(0, 900]` gets a missing label (`none`, pandas NaN) — silently;
`pd.cut` raises no error for out-of-range values. -/
theorem out_of_domain_unlabeled :
    (∀ a : ℤ, a ≤ 0 ∨ 100 < a → ageGroup a = none) ∧
    (∀ c : ℤ, c ≤ 0 ∨ 900 < c → creditSegment c = none) := by
  constructor
  · intro a h
    simp only [ageGroup, cutBucket, cutBucketAux]
    rcases h with h | h <;> split_ifs <;> first | rfl | (exfalso; omega)
  · intro c h
    simp only [creditSegment, cutBucket, cutBucketAux]
    rcases h with h | h <;> split_ifs <;> first | rfl | (exfalso; omega)

/-- Counterexample to C6 as stated: out-of-domain values do not fail with a
`ValidationError`; the labeler returns and the rows are silently left
unlabeled (`none`). -/
theorem out_of_domain_no_error :
    ageGroup 150 = none ∧ ageGroup 0 = none ∧ ageGroup (-3) = none ∧
    creditSegment 950 = none ∧ creditSegment 0 = none := by decide

/-- Witness for the amended C6 at `Age = 150` and `CreditScore = 950`. -/
theorem out_of_domain_unlabeled_witness :
    ageGroup 150 = none ∧ creditSegment 950 = none :=
  ⟨out_of_domain_unlabeled.1 150 (Or.inr (by decide)),
   out_of_domain_unlabeled.2 950 (Or.inr (by decide))⟩

/-- Claim C7 (amended): the dashboard loader's drop (`errors='ignore'`) is
best-effort and idempotent — dropping twice equals dropping once, and a
table already missing the identifier columns passes through unchanged —
but the batch script's drop (`churn_analysis.py`, no `errors='ignore'`)
raises `KeyError` when a column to drop is absent. -/
theorem drop_ignore_idempotent_strict_raises :
    (∀ f : DFrame, dropIgnore idCols (dropIgnore idCols f) = dropIgnore idCols f) ∧
    (∀ f : DFrame, (∀ c ∈ f, ¬ c.1 ∈ idCols) → dropIgnore idCols f = f) ∧
    (∀ f : DFrame, (∀ c ∈ f, c.1 ≠ "RowNumber") →
      dropStrict idCols f = Except.error "KeyError: labels not found in axis") := by
  refine ⟨fun f => ?_, fun f h => ?_, fun f h => ?_⟩
  · simp [dropIgnore, List.filter_filter]
  · exact List.filter_eq_self.mpr fun c hc => by simpa using h c hc
  · have hall : (idCols.all fun l => f.any fun c => c.1 = l) = false := by
      have : (f.any fun c => c.1 = "RowNumber") = false := by
        simp only [List.any_eq_false]
        intro c hc
        simpa using h c hc
      simp [idCols, this]
    simp [dropStrict, hall]

/-- Counterexample to C7 as stated: the batch-script normalizer
(`df.drop` without `errors='ignore'`) fails on a table missing the
identifier columns instead of treating their absence as a no-op. -/
theorem drop_strict_missing_column_errors :
    dropStrict idCols [("Age", ["40"])] =
      Except.error "KeyError: labels not found in axis" := by decide

/-- Witness for the amended C7 on a concrete identifier-free table. -/
theorem drop_ignore_idempotent_strict_raises_witness :
    dropIgnore idCols [("Age", ["40"])] = [("Age", ["40"])] ∧
    dropStrict idCols ([] : DFrame) =
      Except.error "KeyError: labels not found in axis" :=
  ⟨drop_ignore_idempotent_strict_raises.2.1 [("Age", ["40"])] (by decide),
   drop_ignore_idempotent_strict_raises.2.2 [] (by decide)⟩

/-- Claim C10: a filter selection matching no rows (e.g. an empty
multiselect) is not an error: the page reports 0 customers and an
undefined (NaN, here `none`) churn rate, because the mean of an empty
selection is NaN rather than a division failure. -/
theorem empty_filter_nan_rate (t : List Row) (gf gnf cf : List String)
    (h : ∀ r ∈ t, filterPred gf gnf cf r = false) :
    filteredStats t gf gnf cf = (0, none) := by
  have hnil : t.filter (filterPred gf gnf cf) = [] := by
    simp only [List.filter_eq_nil_iff]
    intro r hr
    simp [h r hr]
  simp [filteredStats, hnil, seriesMean]

/-- Witness for C10: the empty Geography multiselect on a one-row table. -/
theorem empty_filter_nan_rate_witness :
    filteredStats [specRow] [] ["Female"] ["GOLD"] = (0, none) :=
  empty_filter_nan_rate [specRow] [] ["Female"] ["GOLD"] (by decide)

/-- All-failing path lists make `tryPaths` report no table and log every
candidate. -/
theorem tryPaths_all_error {α : Type} (step : String → Except String α) :
    ∀ ps : List String, (∀ p ∈ ps, ∃ e, step p = Except.error e) →
      tryPaths step ps = (none, ps) := by
  intro ps
  induction ps with
  | nil => intro _; rfl
  | cons p ps ih =>
      intro h
      obtain ⟨e, he⟩ := h p (List.mem_cons_self p ps)
      have hrest := ih fun q hq => h q (List.mem_cons_of_mem p hq)
      simp [tryPaths, he, hrest]

/-- `tryPaths` stops at the first successful candidate: the prefix fails,
the next one parses, and nothing after it is attempted. -/
theorem tryPaths_first_ok {α : Type} (step : String → Except String α) :
    ∀ (pre : List String) (p : String) (post : List String) (t : α),
      (∀ q ∈ pre, ∃ e, step q = Except.error e) → step p = Except.ok t →
      tryPaths step (pre ++ p :: post) = (some t, pre ++ [p]) := by
  intro pre
  induction pre with
  | nil =>
      intro p post t _ hok
      simp [tryPaths, hok]
  | cons q pre ih =>
      intro p post t h hok
      obtain ⟨e, he⟩ := h q (List.mem_cons_self q pre)
      have hrest := ih p post t (fun q' hq' => h q' (List.mem_cons_of_mem q hq')) hok
      simp [tryPaths, he, hrest]

/-- Claim C8: when the first `N` pre-derived candidates fail and candidate
`N+1` parses as a derived table, the loader returns that table's content,
attempting exactly the first `N+1` pre-derived paths and no path of the
raw fallback list (the result and the attempt log are independent of the
raw list). -/
theorem loader_first_success_skips_raw {α : Type}
    (env : String → Except String α) (process : α → Except String α)
    (pre : List String) (p : String) (post raw : List String) (t : α)
    (hfail : ∀ q ∈ pre, ∃ e, env q = Except.error e)
    (hok : env p = Except.ok t) :
    loadData env process (pre ++ p :: post) raw = (Except.ok t, pre ++ [p]) := by
  simp [loadData, tryPaths_first_ok env pre p post t hfail hok]

/-- Witness for C8: first processed path unreachable, second parses; the
raw candidates are never attempted. -/
theorem loader_first_success_skips_raw_witness :
    loadData demoEnv demoProcess
      ["data/processed_churn_data.csv", "../data/processed_churn_data.csv",
       "bank_churn_project/data/processed_churn_data.csv"]
      ["data/raw/Customer-Churn-Records.csv",
       "../data/raw/Customer-Churn-Records.csv",
       "bank_churn_project/data/raw/Customer-Churn-Records.csv"] =
      (Except.ok [specRow],
       ["data/processed_churn_data.csv", "../data/processed_churn_data.csv"]) :=
  loader_first_success_skips_raw demoEnv demoProcess
    ["data/processed_churn_data.csv"] "../data/processed_churn_data.csv"
    ["bank_churn_project/data/processed_churn_data.csv"]
    ["data/raw/Customer-Churn-Records.csv",
     "../data/raw/Customer-Churn-Records.csv",
     "bank_churn_project/data/raw/Customer-Churn-Records.csv"] [specRow]
    (fun q hq => by
      have : q = "data/processed_churn_data.csv" := by simpa using hq
      exact ⟨"FileNotFoundError", by rw [this]; decide⟩)
    (by decide)

/-- Claim C9 (amended): when every candidate in both lists fails, the
loader attempts them all but raises a `FileNotFoundError` carrying only
the fixed generic message `Could not load data from any path` — no
attempted locations and no per-location reasons. -/
theorem loader_all_fail_generic_error {α : Type}
    (env : String → Except String α) (process : α → Except String α)
    (pre raw : List String)
    (hpre : ∀ p ∈ pre, ∃ e, env p = Except.error e)
    (hraw : ∀ p ∈ raw, ∃ e, (env p).bind process = Except.error e) :
    loadData env process pre raw = (Except.error noDataMsg, pre ++ raw) := by
  simp [loadData, tryPaths_all_error env pre hpre,
    tryPaths_all_error (fun p => (env p).bind process) raw hraw]

/-- Counterexample to C9 as stated: two all-failing runs with different
candidate lists and different per-location failure reasons
(`PermissionError`/`FileNotFoundError` versus `ParserError`) produce the
very same error value — the error cannot carry the attempted locations or
their individual reasons. -/
theorem loader_error_carries_no_locations :
    (loadData failEnvA demoProcess ["data/processed_churn_data.csv"]
        ["data/raw/Customer-Churn-Records.csv"]).1 = Except.error noDataMsg ∧
    (loadData failEnvB demoProcess ["../data/processed_churn_data.csv", "x.csv"]
        ["y.csv"]).1 = Except.error noDataMsg ∧
    (loadData failEnvA demoProcess ["data/processed_churn_data.csv"]
        ["data/raw/Customer-Churn-Records.csv"]).1 =
      (loadData failEnvB demoProcess ["../data/processed_churn_data.csv", "x.csv"]
        ["y.csv"]).1 := by decide

/-- Witness for the amended C9 with a concrete all-failing environment. -/
theorem loader_all_fail_generic_error_witness :
    loadData failEnvA demoProcess ["data/processed_churn_data.csv"]
        ["data/raw/Customer-Churn-Records.csv"] =
      (Except.error noDataMsg,
       ["data/processed_churn_data.csv", "data/raw/Customer-Churn-Records.csv"]) :=
  loader_all_fail_generic_error failEnvA demoProcess
    ["data/processed_churn_data.csv"] ["data/raw/Customer-Churn-Records.csv"]
    (fun p hp => by
      have : p = "data/processed_churn_data.csv" := by simpa using hp
      exact ⟨"PermissionError", by rw [this]; decide⟩)
    (fun p hp => by
      have : p = "data/raw/Customer-Churn-Records.csv" := by simpa using hp
      exact ⟨"FileNotFoundError", by rw [this]; decide⟩)

/-- Filtering for a key `k'` other than `k` commutes with removing the
`k`-rows first. -/
theorem filter_key_of_ne {K : Type} [DecidableEq K] (key : Row → Option K)
    (k k' : K) (hne : k' ≠ k) (t : List Row) :
    t.filter (fun r => key r = some k') =
      (t.filter (fun r => ¬ key r = some k)).filter
        (fun r => key r = some k') := by
  have hne' : ¬ k = k' := fun h => hne h.symm
  induction t with
  | nil => rfl
  | cons a t ih =>
      simp only [decide_not] at ih
      by_cases h1 : key a = some k'
      · have h2 : ¬ key a = some k := by
          rw [h1]
          simp [hne]
        simp [List.filter_cons, h1, h2, ih, decide_not, hne, hne']
      · by_cases h2 : key a = some k <;>
          simp [List.filter_cons, h1, h2, ih, decide_not, hne, hne']

/-- Splitting a weighted sum along a decidable predicate. -/
theorem sum_filter_split {M : Type} [AddCommMonoid M] (w : Row → M)
    (p : Row → Prop) [DecidablePred p] (t : List Row) :
    ((t.filter fun r => p r).map w).sum +
      ((t.filter fun r => ¬ p r).map w).sum = (t.map w).sum := by
  induction t with
  | nil => simp
  | cons a t ih =>
      simp only [decide_not] at ih
      by_cases h : p a <;>
        simp [List.filter_cons, h, add_assoc, add_left_comm, ih, decide_not]

/-- Partition identity: if a duplicate-free key list covers every row of the
table, the per-group weighted sums add up to the whole-table weighted sum. -/
theorem groups_cover_sum {K M : Type} [DecidableEq K] [AddCommMonoid M]
    (key : Row → Option K) (w : Row → M) :
    ∀ (ks : List K) (t : List Row), ks.Nodup →
      (∀ r ∈ t, ∃ k ∈ ks, key r = some k) →
      (ks.map fun k =>
        ((t.filter fun r => key r = some k).map w).sum).sum = (t.map w).sum := by
  intro ks
  induction ks with
  | nil =>
      intro t _ hcov
      match t with
      | [] => rfl
      | r :: t =>
          obtain ⟨k, hk, _⟩ := hcov r (List.mem_cons_self r t)
          exact absurd hk (List.not_mem_nil k)
  | cons k ks ih =>
      intro t hnd hcov
      have hks : k ∉ ks := (List.nodup_cons.mp hnd).1
      have hnd' : ks.Nodup := (List.nodup_cons.mp hnd).2
      have hstep : ∀ k' ∈ ks,
          ((t.filter fun r => key r = some k').map w).sum =
            (((t.filter fun r => ¬ key r = some k).filter
              fun r => key r = some k').map w).sum := by
        intro k' hk'
        have hne : k' ≠ k := fun he => hks (he ▸ hk')
        rw [← filter_key_of_ne key k k' hne t]
      have hcov' : ∀ r ∈ t.filter (fun r => ¬ key r = some k),
          ∃ k' ∈ ks, key r = some k' := by
        intro r hr
        have hmem := List.mem_of_mem_filter hr
        have hnot : ¬ key r = some k := by
          have := List.of_mem_filter hr
          simpa using this
        obtain ⟨k0, hk0, hkey⟩ := hcov r hmem
        rcases List.mem_cons.mp hk0 with he | hin
        · exact absurd (he ▸ hkey) hnot
        · exact ⟨k0, hin, hkey⟩
      calc (((k :: ks).map fun k' =>
              ((t.filter fun r => key r = some k').map w).sum).sum)
          = ((t.filter fun r => key r = some k).map w).sum +
              (ks.map fun k' =>
                ((t.filter fun r => key r = some k').map w).sum).sum := by
            simp
        _ = ((t.filter fun r => key r = some k).map w).sum +
              (ks.map fun k' =>
                (((t.filter fun r => ¬ key r = some k).filter
                  fun r => key r = some k').map w).sum).sum := by
            rw [List.map_congr_left hstep]
        _ = ((t.filter fun r => key r = some k).map w).sum +
              ((t.filter fun r => ¬ key r = some k).map w).sum := by
            rw [ih (t.filter fun r => ¬ key r = some k) hnd' hcov']
        _ = (t.map w).sum := sum_filter_split w _ t

/-- A constant-one weighted sum is a length. -/
theorem sum_map_one (t : List Row) : (t.map fun _ => (1 : ℕ)).sum = t.length := by
  induction t with
  | nil => rfl
  | cons a t ih => simp [ih, Nat.add_comm]

/-- Claim C4 (amended): for every table all of whose rows carry a
non-missing value in the grouping column, the aggregator conserves mass:
the groups' `Total`s sum to the table's row count and the groups'
`ChurnedCount`s sum to the table-wide churn sum.  (Rows with a missing
grouping key are silently dropped by `groupby`, see the counterexample.) -/
theorem aggregator_conserves_rows {K : Type} [DecidableEq K]
    (key : Row → Option K) (t : List Row)
    (h : ∀ r ∈ t, (key r).isSome) :
    ((groupAgg key t).map fun g => g.total).sum = t.length ∧
    ((groupAgg key t).map fun g => g.churnedCount).sum =
      (t.map fun r => r.churned).sum := by
  have hnd : (distinctKeys key t).Nodup := List.nodup_dedup _
  have hcov : ∀ r ∈ t, ∃ k ∈ distinctKeys key t, key r = some k := by
    intro r hr
    obtain ⟨k, hk⟩ := Option.isSome_iff_exists.mp (h r hr)
    exact ⟨k, List.mem_dedup.mpr (List.mem_filterMap.mpr ⟨r, hr, hk⟩), hk⟩
  constructor
  · have := groups_cover_sum key (fun _ => (1 : ℕ)) (distinctKeys key t) t hnd hcov
    calc ((groupAgg key t).map fun g => g.total).sum
        = ((distinctKeys key t).map fun k =>
            ((t.filter fun r => key r = some k).map fun _ => (1 : ℕ)).sum).sum := by
          simp [groupAgg, Function.comp_def, sum_map_one]
      _ = (t.map fun _ => (1 : ℕ)).sum := this
      _ = t.length := sum_map_one t
  · have := groups_cover_sum key (fun r => r.churned) (distinctKeys key t) t hnd hcov
    calc ((groupAgg key t).map fun g => g.churnedCount).sum
        = ((distinctKeys key t).map fun k =>
            ((t.filter fun r => key r = some k).map fun r => r.churned).sum).sum := by
          simp [groupAgg, Function.comp_def]
      _ = (t.map fun r => r.churned).sum := this

/-- Counterexample to C4 as stated: grouping by the derived `AgeGroup`
column on a table holding one out-of-range age (150, key NaN) loses the
row — the groups' `Total`s sum to 0, not to the row count 1. -/
theorem aggregator_drops_nan_key_rows :
    ((groupAgg (fun r => ageGroup r.age) [plainRow 100 150]).map
      fun g => g.total).sum ≠ [plainRow 100 150].length := by decide

/-- Witness for the amended C4: grouping a concrete two-row table by
Geography (keys always present) conserves both sums. -/
theorem aggregator_conserves_rows_witness :
    ((groupAgg (fun r => some r.geography) [specRow, plainRow 10 40]).map
      fun g => g.total).sum = [specRow, plainRow 10 40].length ∧
    ((groupAgg (fun r => some r.geography) [specRow, plainRow 10 40]).map
      fun g => g.churnedCount).sum =
      ([specRow, plainRow 10 40].map fun r => r.churned).sum :=
  aggregator_conserves_rows (fun r => some r.geography)
    [specRow, plainRow 10 40] (by decide)

/-- `ratAdd` is ordinary rational addition. -/
theorem ratAdd_eq (a b : ℚ) : ratAdd a b = a + b := by
  rw [ratAdd, Rat.mkRat_eq_div]
  have ha : ((a.den : ℚ)) ≠ 0 := Nat.cast_ne_zero.mpr a.den_nz
  have hb : ((b.den : ℚ)) ≠ 0 := Nat.cast_ne_zero.mpr b.den_nz
  conv_rhs => rw [← Rat.num_div_den a, ← Rat.num_div_den b]
  push_cast
  field_simp

/-- `ratSub` is ordinary rational subtraction. -/
theorem ratSub_eq (a b : ℚ) : ratSub a b = a - b := by
  rw [ratSub, Rat.mkRat_eq_div]
  have ha : ((a.den : ℚ)) ≠ 0 := Nat.cast_ne_zero.mpr a.den_nz
  have hb : ((b.den : ℚ)) ≠ 0 := Nat.cast_ne_zero.mpr b.den_nz
  conv_rhs => rw [← Rat.num_div_den a, ← Rat.num_div_den b]
  push_cast
  field_simp
  ring

/-- `ratMul` is ordinary rational multiplication. -/
theorem ratMul_eq (a b : ℚ) : ratMul a b = a * b := by
  rw [ratMul, Rat.mkRat_eq_div]
  have ha : ((a.den : ℚ)) ≠ 0 := Nat.cast_ne_zero.mpr a.den_nz
  have hb : ((b.den : ℚ)) ≠ 0 := Nat.cast_ne_zero.mpr b.den_nz
  conv_rhs => rw [← Rat.num_div_den a, ← Rat.num_div_den b]
  push_cast
  field_simp

/-- `mkRat k 1` is the integer `k` as a rational. -/
theorem mkRat_int (k : ℤ) : mkRat k 1 = (k : ℚ) := by
  rw [Rat.mkRat_eq_div]
  simp

/-- `Rat.floor` agrees with the floor of the archimedean order. -/
theorem ratFloor_eq_intFloor (q : ℚ) : q.floor = ⌊q⌋ := by
  rw [Rat.floor_def' q, Rat.floor_def]

/-- `sortAsc` sorts. -/
theorem sortAsc_sorted (xs : List ℚ) : List.Sorted (· ≤ ·) (sortAsc xs) :=
  List.sorted_insertionSort _ xs

/-- `sortAsc` keeps the elements. -/
theorem mem_sortAsc {x : ℚ} {xs : List ℚ} : x ∈ sortAsc xs ↔ x ∈ xs :=
  (List.perm_insertionSort _ xs).mem_iff

/-- In a sorted list the head bounds every member from below. -/
theorem sorted_head?_le (l : List ℚ) (hs : List.Sorted (· ≤ ·) l) (x : ℚ)
    (hx : x ∈ l) (h0 : ℚ) (hh : l.head? = some h0) : h0 ≤ x := by
  cases l with
  | nil => cases hx
  | cons a t =>
      have ha : a = h0 := by simpa using hh
      subst ha
      rcases List.mem_cons.mp hx with rfl | hx'
      · exact le_refl x
      · exact List.rel_of_sorted_cons hs x hx'

/-- In a sorted list the last element bounds every member from above. -/
theorem sorted_le_getLast? :
    ∀ (l : List ℚ), List.Sorted (· ≤ ·) l →
      ∀ x ∈ l, ∀ z, l.getLast? = some z → x ≤ z := by
  intro l
  induction l with
  | nil => intro _ x hx; cases hx
  | cons a t ih =>
      intro hs x hx z hz
      cases t with
      | nil =>
          have hza : a = z := by simpa using hz
          rcases List.mem_cons.mp hx with rfl | h'
          · exact le_of_eq hza
          · cases h'
      | cons b t' =>
          rw [List.getLast?_cons_cons] at hz
          rcases List.mem_cons.mp hx with rfl | hx'
          · have hzmem : z ∈ b :: t' := by
              have h1 := List.getLast?_eq_getLast_of_ne_nil
                (l := b :: t') (by simp)
              rw [h1] at hz
              have h2 : (b :: t').getLast (by simp) = z := by simpa using hz
              rw [← h2]
              exact List.getLast_mem _
            exact List.rel_of_sorted_cons hs z hzmem
          · exact ih hs.of_cons x hx' z hz

/-- `dedupAdj` of a nonempty list is nonempty. -/
theorem dedupAdj_ne_nil : ∀ l : List ℚ, l ≠ [] → dedupAdj l ≠ []
  | [] => fun h => absurd rfl h
  | [a] => fun _ => by simp [dedupAdj]
  | a :: b :: rest => fun _ => by
      by_cases h : a = b
      · simpa [dedupAdj, h] using dedupAdj_ne_nil (b :: rest) (by simp)
      · simp [dedupAdj, h]

/-- `dedupAdj` keeps the head. -/
theorem dedupAdj_head? : ∀ l : List ℚ, (dedupAdj l).head? = l.head?
  | [] => rfl
  | [a] => rfl
  | a :: b :: rest => by
      by_cases h : a = b
      · rw [show dedupAdj (a :: b :: rest) = dedupAdj (b :: rest) by
          simp [dedupAdj, h]]
        rw [dedupAdj_head? (b :: rest)]
        simp [h]
      · simp [dedupAdj, h]

/-- `dedupAdj` keeps the last element. -/
theorem dedupAdj_getLast? : ∀ l : List ℚ, (dedupAdj l).getLast? = l.getLast?
  | [] => rfl
  | [a] => rfl
  | a :: b :: rest => by
      rw [List.getLast?_cons_cons]
      by_cases h : a = b
      · rw [show dedupAdj (a :: b :: rest) = dedupAdj (b :: rest) by
          simp [dedupAdj, h]]
        exact dedupAdj_getLast? (b :: rest)
      · rw [show dedupAdj (a :: b :: rest) = a :: dedupAdj (b :: rest) by
          simp [dedupAdj, h]]
        have hne := dedupAdj_ne_nil (b :: rest) (by simp)
        cases hd : dedupAdj (b :: rest) with
        | nil => exact absurd hd hne
        | cons c L =>
            rw [List.getLast?_cons_cons, ← hd, dedupAdj_getLast? (b :: rest)]

/-- The 0-quantile of a sorted nonempty list is its head. -/
theorem interpQuantile_zero (a : ℚ) (t : List ℚ) :
    interpQuantile (a :: t) 0 = a := by
  simp only [interpQuantile]
  rw [show ratMul 0 (ratSub (mkRat ((a :: t).length) 1) 1) = 0 by
    rw [ratMul_eq]; exact zero_mul _]
  have hf : ((0 : ℚ).floor.toNat) = 0 := by
    rw [ratFloor_eq_intFloor]
    simp
  rw [hf]
  cases t with
  | nil => simp
  | cons b t' => simp [ratSub_eq, ratMul_eq, ratAdd_eq, mkRat_int]

/-- The 1-quantile of a list is its last element. -/
theorem interpQuantile_getLast (s : List ℚ) (z : ℚ)
    (hz : s.getLast? = some z) : interpQuantile s 1 = z := by
  have hne : s ≠ [] := by
    intro h
    rw [h] at hz
    simp at hz
  have hn : 1 ≤ s.length := List.length_pos.mpr hne
  simp only [interpQuantile]
  rw [show ratMul 1 (ratSub (mkRat (s.length) 1) 1) = ((s.length : ℚ) - 1) by
    rw [ratMul_eq, ratSub_eq, mkRat_int]; push_cast; ring]
  have hfl : (((s.length : ℚ) - 1).floor.toNat) = s.length - 1 := by
    rw [ratFloor_eq_intFloor]
    rw [show ((s.length : ℚ) - 1) = (((s.length : ℤ) - 1 : ℤ) : ℚ) by push_cast; ring]
    rw [Int.floor_intCast]
    omega
  rw [hfl]
  have hget : s.get? (s.length - 1) = some z := by
    rw [← List.getLast?_eq_get?]
    exact hz
  have hnone : s.get? (s.length - 1 + 1) = none := by
    apply List.get?_len_le
    omega
  rw [hget, hnone]

/-- Bucket-scan totality: if `lo < x` and `x` is at most the last edge, the
scan over consecutive pairs finds a bucket, with index below the pair
count. -/
theorem cutBucketAux_some :
    ∀ (rest : List ℚ) (lo x : ℚ) (i : ℕ) (z : ℚ),
      rest.getLast? = some z → lo < x → x ≤ z →
      ∃ j, cutBucketAux lo rest x i = some j ∧ j < i + rest.length
  | [] => by
      intro lo x i z hz
      simp at hz
  | [hi] => by
      intro lo x i z hz hlo hle
      have hz' : hi = z := by simpa using hz
      subst hz'
      refine ⟨i, ?_, by simp⟩
      simp [cutBucketAux, hlo, hle]
  | hi :: h2 :: tl => by
      intro lo x i z hz hlo hle
      rw [List.getLast?_cons_cons] at hz
      by_cases hc : x ≤ hi
      · refine ⟨i, ?_, by simp⟩
        simp [cutBucketAux, hlo, hc]
      · have hhi : hi < x := not_le.mp hc
        obtain ⟨j, hj, hjlt⟩ :=
          cutBucketAux_some (h2 :: tl) hi x (i + 1) z hz hhi hle
        refine ⟨j, ?_, ?_⟩
        · rw [show cutBucketAux lo (hi :: h2 :: tl) x i =
            cutBucketAux hi (h2 :: tl) x (i + 1) by simp [cutBucketAux, hc]]
          exact hj
        · simp only [List.length_cons] at hjlt ⊢
          omega

/-- Every nonzero balance value gets one of the four labels once the
quantile edges exist: membership in the data puts `x` between the lowest
and the highest edge, and the scan then lands in some bucket. -/
theorem qcutLabel_isSome (xs es : List ℚ) (hq : qcutEdges xs = some es)
    (x : ℚ) (hx : x ∈ xs) :
    ∃ l ∈ (["Low", "Medium", "High", "Premium"] : List String),
      qcutLabel es x = some l := by
  simp only [qcutEdges] at hq
  split_ifs at hq with hxs hlen
  have hes : dedupAdj (sortAsc (quantileList xs)) = es := Option.some.inj hq
  have hlen5 : es.length = 5 := hes ▸ hlen
  have hsx : x ∈ sortAsc xs := mem_sortAsc.mpr hx
  have hsort : List.Sorted (· ≤ ·) (sortAsc xs) := sortAsc_sorted xs
  obtain ⟨a, t, hst⟩ : ∃ a t, sortAsc xs = a :: t := by
    cases hs0 : sortAsc xs with
    | nil => rw [hs0] at hsx; cases hsx
    | cons a t => exact ⟨a, t, rfl⟩
  have hq0 : interpQuantile (sortAsc xs) 0 = a := by
    rw [hst]; exact interpQuantile_zero a t
  obtain ⟨z, hzlast⟩ : ∃ z, (sortAsc xs).getLast? = some z := by
    rw [hst]
    exact ⟨(a :: t).getLast (by simp), List.getLast?_eq_getLast _ _⟩
  have hq4 : interpQuantile (sortAsc xs) 1 = z :=
    interpQuantile_getLast (sortAsc xs) z hzlast
  have hax : a ≤ x :=
    sorted_head?_le (sortAsc xs) hsort x hsx a (by rw [hst]; rfl)
  have hxz : x ≤ z := sorted_le_getLast? (sortAsc xs) hsort x hsx z hzlast
  have husort : List.Sorted (· ≤ ·) (sortAsc (quantileList xs)) :=
    sortAsc_sorted _
  have hq0u : interpQuantile (sortAsc xs) 0 ∈ sortAsc (quantileList xs) := by
    rw [mem_sortAsc]
    simp [quantileList]
  have hq4u : interpQuantile (sortAsc xs) 1 ∈ sortAsc (quantileList xs) := by
    rw [mem_sortAsc]
    simp [quantileList]
  have hesne : es ≠ [] := by
    intro h
    rw [h] at hlen5
    simp at hlen5
  obtain ⟨e0, erest, hes_cons⟩ : ∃ e0 erest, es = e0 :: erest := by
    cases es with
    | nil => exact absurd rfl hesne
    | cons e0 erest => exact ⟨e0, erest, rfl⟩
  have hhead : (sortAsc (quantileList xs)).head? = some e0 := by
    rw [← dedupAdj_head? (sortAsc (quantileList xs)), hes, hes_cons]
    rfl
  obtain ⟨zu, hzu⟩ : ∃ zu, es.getLast? = some zu := by
    rw [hes_cons]
    exact ⟨(e0 :: erest).getLast (by simp), List.getLast?_eq_getLast _ _⟩
  have hulast : (sortAsc (quantileList xs)).getLast? = some zu := by
    rw [← dedupAdj_getLast? (sortAsc (quantileList xs)), hes]
    exact hzu
  have he0x : e0 ≤ x :=
    le_trans
      (le_trans
        (sorted_head?_le _ husort _ hq0u e0 hhead)
        (le_of_eq hq0))
      hax
  have hxzu : x ≤ zu :=
    le_trans hxz
      (le_trans (le_of_eq hq4.symm)
        (sorted_le_getLast? _ husort _ hq4u zu hulast))
  by_cases hxe : x = e0
  · exact ⟨"Low", by simp, by simp [qcutLabel, hes_cons, hxe]⟩
  · have hlt : e0 < x := lt_of_le_of_ne he0x (Ne.symm hxe)
    have herest_len : erest.length = 4 := by
      rw [hes_cons] at hlen5
      simpa using hlen5
    have herest_last : erest.getLast? = some zu := by
      rw [hes_cons] at hzu
      cases erest with
      | nil => simp at herest_len
      | cons c L =>
          rw [List.getLast?_cons_cons] at hzu
          exact hzu
    obtain ⟨j, hj, hjlt⟩ :=
      cutBucketAux_some erest e0 x 0 zu herest_last hlt hxzu
    have hj4 : j < 4 := by
      rw [herest_len] at hjlt
      simpa using hjlt
    have hl := List.get?_eq_get
      (l := (["Low", "Medium", "High", "Premium"] : List String))
      (n := j) (by simpa using hj4)
    refine ⟨_, List.get?_mem hl, ?_⟩
    simp only [qcutLabel, hes_cons, List.head?_cons, cutBucket]
    rw [if_neg hxe, hj]
    simpa using hl

/-- Claim C5 (amended): whenever the quantile bucketing succeeds (four
distinct quantile edges over the nonzero balances), every zero-balance row
is labelled `Zero` and every positive-balance row gets one of the four
labels Low/Medium/High/Premium; and the quantile edges are computed only
over the nonzero-balance rows — appending zero-balance rows never changes
them.  When the nonzero balances are degenerate, `pd.qcut` raises instead
(see the counterexample). -/
theorem balanceSegment_zero_and_quartiles :
    (∀ (t : List Row) (res : List (Row × Option String)),
      assignBalanceSegments t = Except.ok res →
      ∀ p ∈ res,
        (p.1.balance = 0 → p.2 = some "Zero") ∧
        (0 < p.1.balance →
          ∃ l ∈ (["Low", "Medium", "High", "Premium"] : List String),
            p.2 = some l)) ∧
    (∀ t zs : List Row, (∀ r ∈ zs, r.balance = 0) →
      qcutEdges (nonzeroBalances (t ++ zs)) = qcutEdges (nonzeroBalances t)) := by
  constructor
  · intro t res hok p hp
    rcases hq : qcutEdges (nonzeroBalances t) with _ | es
    · rw [assignBalanceSegments, hq] at hok
      cases hok
    · rw [assignBalanceSegments, hq] at hok
      have hres := (Except.ok.injEq _ _).mp hok
      rw [← hres] at hp
      obtain ⟨r, hr, hpr⟩ := List.mem_map.mp hp
      constructor
      · intro hb0
        rw [← hpr] at hb0 ⊢
        simp only at hb0 ⊢
        rw [if_pos hb0]
      · intro hbpos
        rw [← hpr] at hbpos ⊢
        simp only at hbpos ⊢
        have hbne : r.balance ≠ 0 := ne_of_gt hbpos
        rw [if_neg hbne]
        apply qcutLabel_isSome (nonzeroBalances t) es hq
        exact List.mem_map.mpr
          ⟨r, List.mem_filter.mpr ⟨hr, by simpa using hbne⟩, rfl⟩
  · intro t zs hzs
    have hfil : nonzeroBalances (t ++ zs) = nonzeroBalances t := by
      rw [nonzeroBalances, nonzeroBalances, List.filter_append]
      have : zs.filter (fun r => r.balance ≠ 0) = [] := by
        simp only [List.filter_eq_nil_iff]
        intro r hr
        simp [hzs r hr]
      rw [this, List.append_nil]
    rw [hfil]

/-- Counterexample to C5 as stated: a table whose nonzero balances are all
equal has collapsing quantile edges; `pd.qcut(..., duplicates='drop')` then
raises a `ValueError` and no row — not even the zero-balance one — receives
any label. -/
theorem balanceSegment_degenerate_errors :
    assignBalanceSegments degenerateTable =
      Except.error
        "ValueError: Bin labels must be one fewer than the number of bin edges" := by
  decide

/-- Witness for the amended C5 on `demoTable` (nonzero balances 10/20/30/40,
edges 10, 17.5, 25, 32.5, 40): the zero-balance spec row is labelled `Zero`,
and appending another zero-balance row leaves the edges unchanged. -/
theorem balanceSegment_zero_and_quartiles_witness :
    assignBalanceSegments demoTable = Except.ok demoRes ∧
    (specRow, some "Zero").2 = some "Zero" ∧
    qcutEdges (nonzeroBalances (demoTable ++ [plainRow 0 40])) =
      qcutEdges (nonzeroBalances demoTable) :=
  ⟨by decide,
   ((balanceSegment_zero_and_quartiles.1 demoTable demoRes (by decide)
      (specRow, some "Zero") (by decide)).1 (by decide)),
   balanceSegment_zero_and_quartiles.2 demoTable [plainRow 0 40] (by decide)⟩

/-- Claim C1: the spec's concrete scenario row (CreditScore 650, Germany,
Age 55, Tenure 3, Balance 0, 3 products, inactive, complaint) receives
AgeGroup `51-60`, CreditSegment `Fair`, TenureSegment `Growing (3-5)`,
BalanceSegment `Zero` (in any table whose balance bucketing succeeds),
RiskScore 100 and RiskLevel `Critical`. -/
theorem spec_scenario_labels :
    ageGroup specRow.age = some "51-60" ∧
    creditSegment specRow.creditScore = some "Fair" ∧
    tenureSegment specRow.tenure = some "Growing (3-5)" ∧
    (∀ (t : List Row) (res : List (Row × Option String)),
      assignBalanceSegments t = Except.ok res → specRow ∈ t →
      (specRow, some "Zero") ∈ res) ∧
    riskScoreOf specRow = 100 ∧
    riskLevelOf (riskScoreOf specRow) = some "Critical" := by
  refine ⟨by decide, by decide, by decide, ?_, by decide, by decide⟩
  intro t res hok hmem
  rcases hq : qcutEdges (nonzeroBalances t) with _ | es
  · rw [assignBalanceSegments, hq] at hok
    cases hok
  · rw [assignBalanceSegments, hq] at hok
    have hres := (Except.ok.injEq _ _).mp hok
    rw [← hres]
    apply List.mem_map.mpr
    refine ⟨specRow, hmem, ?_⟩
    have hb : specRow.balance = 0 := by decide
    rw [if_pos hb]

/-- Witness for C1: the scenario row inside `demoTable`, whose bucketing
succeeds, is indeed paired with label `Zero` in the output. -/
theorem spec_scenario_labels_witness :
    assignBalanceSegments demoTable = Except.ok demoRes ∧
    (specRow, some "Zero") ∈ demoRes :=
  ⟨by decide,
   spec_scenario_labels.2.2.2.1 demoTable demoRes (by decide) (by decide)⟩

end BankChurn
